import Mathlib

/-!
Verification development for the distributed ID allocator in
`pkg/kvstore/allocator/allocator.go` (Cilium).  The allocator logic present in
the source tree is embedded shallowly as executable Lean functions over an
explicit state: the KV store is an association list from keys to
`(data, modRevision)` entries, every KV operation issued by the code is
recorded in a trace, and transport failures are injected through an
environment `Env : KVOp → Bool` (`true` = the operation fails).

Components of the repository that the allocator uses but whose code is not in
the tree (the `idpool` package, the `localKeys` table, the KV-store adapter
semantics, the exponential backoff object) are modelled from the
specification; their doc comments say so explicitly.
-/

namespace CiliumAlloc

/-- Error values are plain strings, mirroring Go `error` messages. -/
abbrev Err := String

/-- Auxiliary scan for `lastIndexSlash`: walks the character list keeping the
index of the last slash seen so far (`-1` when none). -/
def lastSlashAux : List Char → Nat → Int → Int
  | [], _, acc => acc
  | c :: cs, i, acc => lastSlashAux cs (i + 1) (if c = '/' then (i : Int) else acc)

/-- Index of the last `/` in a string, `-1` when absent; models Go
`strings.LastIndex(key, "/")` for the ASCII keys the allocator uses. -/
def lastIndexSlash (s : String) : Int :=
  lastSlashAux s.data 0 (-1)

/-- Embeds `prefixMatchesKey` from allocator.go: the listed key matches the
prefix exactly when the key's last slash sits at index `len(prefix)`. -/
def prefixMatchesKey (pfx key : String) : Bool :=
  (pfx.data.length : Int) == lastIndexSlash key

/-- String-prefix test on the underlying character lists; models the key-range
semantics of the KV store's prefix listing. -/
def strPfx (p s : String) : Bool :=
  p.data.isPrefixOf s.data

/-- Auxiliary for `pJoin`: drops a slash that immediately follows another
slash, i.e. the duplicate-slash collapsing aspect of Go `path.Clean`. -/
def collapseAux : Char → List Char → List Char
  | _, [] => []
  | prev, c :: rest =>
    if prev = '/' ∧ c = '/' then collapseAux prev rest else c :: collapseAux c rest

/-- Collapses duplicate slashes in a character list. -/
def collapseSlashes : List Char → List Char
  | [] => []
  | c :: rest => c :: collapseAux c rest

/-- Models Go `path.Join(a, b)` for the non-empty, `.`/`..`-free path
components the allocator builds: concatenate with `/` and collapse duplicate
slashes. -/
def pJoin (a b : String) : String :=
  String.mk (collapseSlashes (a.data ++ '/' :: b.data))

/-- Models Go `strings.TrimPrefix`. -/
def trimPfx (s p : String) : String :=
  if strPfx p s then String.mk (s.data.drop p.data.length) else s

/-- Value of a decimal digit character, `none` for non-digits. -/
def digitVal : Char → Option Nat :=
  fun c => if '0' ≤ c ∧ c ≤ '9' then some (c.toNat - '0'.toNat) else none

/-- Accumulating decimal parser over a character list. -/
def parseUintAux : List Char → Nat → Option Nat
  | [], acc => some acc
  | c :: rest, acc =>
    match digitVal c with
    | some d => parseUintAux rest (acc * 10 + d)
    | none => none

/-- Models Go `strconv.ParseUint(s, 10, 64)`: non-empty all-digit string whose
value fits in 64 bits. -/
def parseUint10 (s : String) : Option Nat :=
  if s.data.isEmpty then none
  else
    match parseUintAux s.data 0 with
    | some v => if v < 2 ^ 64 then some v else none
    | none => none

/-- First-match association-list lookup, the model of map indexing. -/
def lookupAssoc {α : Type} : List (String × α) → String → Option α
  | [], _ => none
  | (k, v) :: rest, key => if k = key then some v else lookupAssoc rest key

/-- One stored KV pair: the bytes and the modification revision. -/
structure KVEntry where
  data : String
  modRev : Nat
  deriving DecidableEq, Repr

/-- The KV store contents: an association list from full keys to entries. -/
abbrev KV := List (String × KVEntry)

/-- Models the KV store's `ListPrefix`: every stored pair whose key has the
given string prefix. -/
def listPfx (kv : KV) (p : String) : KV :=
  kv.filter (fun e => strPfx p e.1)

/-- Write (create or overwrite) a key with the given data and revision. -/
def kvWrite : KV → String → String → Nat → KV
  | [], k, d, r => [(k, ⟨d, r⟩)]
  | (k', e) :: rest, k, d, r =>
    if k' = k then (k, ⟨d, r⟩) :: rest else (k', e) :: kvWrite rest k d r

/-- Delete a key (no-op when absent, as in etcd). -/
def kvErase (kv : KV) (k : String) : KV :=
  kv.filter (fun e => e.1 ≠ k)

/-- Modelled from the spec: the `idpool` package is not in the tree.  Spec
§4.1: a dense pool over `[min,max]` whose IDs are free, leased or in-use;
`removed` holds IDs taken out by the cache on external claims.  An ID is free
when it lies in the range and is in none of the three lists. -/
structure IDPool where
  lo : Nat
  hi : Nat
  leased : List Nat
  used : List Nat
  removed : List Nat
  deriving DecidableEq, Repr

/-- Modelled from the spec: whether an ID is currently free in the pool. -/
def poolIsFree (p : IDPool) (i : Nat) : Bool :=
  decide (p.lo ≤ i) && decide (i ≤ p.hi) &&
    !(p.leased.contains i) && !(p.used.contains i) && !(p.removed.contains i)

/-- Modelled from the spec: bounded scan for the first free ID at or above the
candidate, with explicit fuel. -/
def findFree (p : IDPool) : Nat → Nat → Option Nat
  | 0, _ => none
  | fuel + 1, i => if poolIsFree p i then some i else findFree p fuel (i + 1)

/-- Modelled from the spec: `LeaseAvailableID` removes and returns an
arbitrary free ID (here: the smallest), marking it leased; returns `NoID = 0`
on exhaustion, leaving the pool unchanged. -/
def leaseAvailableID (p : IDPool) : Nat × IDPool :=
  match findFree p (p.hi + 1 - p.lo) p.lo with
  | some i => (i, { p with leased := i :: p.leased })
  | none => (0, p)

/-- Modelled from the spec: `Use(id)` promotes a leased ID to in-use. -/
def poolUse (p : IDPool) (i : Nat) : IDPool :=
  if p.leased.contains i then
    { p with leased := p.leased.erase i, used := i :: p.used }
  else p

/-- Modelled from the spec: `Release(id)` returns a leased or in-use ID to the
free state. -/
def poolRelease (p : IDPool) (i : Nat) : IDPool :=
  { p with leased := p.leased.erase i, used := p.used.erase i }

/-- Modelled from the spec: one entry of the local key table (`localKeys` is
not in the tree; spec §4.2): the ID, the reference count and the verified
bit. -/
structure LocalKey where
  id : Nat
  refcnt : Nat
  verified : Bool
  deriving DecidableEq, Repr

/-- The local key table: keyString to local entry. -/
abbrev LocalKeys := List (String × LocalKey)

/-- Modelled from the spec: `use(k)` increments the refcount and returns the
ID when present, `NoID = 0` otherwise. -/
def lkUse : LocalKeys → String → Nat × LocalKeys
  | [], _ => (0, [])
  | (k, e) :: rest, key =>
    if k = key then (e.id, (k, { e with refcnt := e.refcnt + 1 }) :: rest)
    else
      let r := lkUse rest key
      (r.1, (k, e) :: r.2)

/-- Modelled from the spec: `allocate(k,id)` inserts `(k,id)` with refcount 1
when absent and returns `id`; otherwise increments the refcount and returns
the existing ID. -/
def lkAllocate : LocalKeys → String → Nat → Nat × LocalKeys
  | [], key, id => (id, [(key, ⟨id, 1, false⟩)])
  | (k, e) :: rest, key, id =>
    if k = key then (e.id, (k, { e with refcnt := e.refcnt + 1 }) :: rest)
    else
      let r := lkAllocate rest key id
      (r.1, (k, e) :: r.2)

/-- Remove every entry with the given key. -/
def eraseAssoc {α : Type} (l : List (String × α)) (key : String) : List (String × α) :=
  l.filter (fun e => e.1 ≠ key)

/-- Modelled from the spec: `release(k)` decrements the refcount, returning
`lastUse = true` exactly when it hits zero (the entry is then removed).  The
second flag reports the key-not-found error of the source table. -/
def lkRelease (m : LocalKeys) (key : String) : (Bool × Bool) × LocalKeys :=
  match lookupAssoc m key with
  | none => ((false, true), m)
  | some e =>
    if e.refcnt ≤ 1 then ((true, false), eraseAssoc m key)
    else ((false, false), m.map (fun p => if p.1 = key then (p.1, { p.2 with refcnt := p.2.refcnt - 1 }) else p))

/-- Modelled from the spec: `verify(k)` sets the verified bit (no-op when the
key is absent; the source only logs that case). -/
def lkVerify (m : LocalKeys) (key : String) : LocalKeys :=
  m.map (fun p => if p.1 = key then (p.1, { p.2 with verified := true }) else p)

/-- Modelled from the spec: `lookupKey(k)` returns the locally held ID or
`NoID = 0`. -/
def lkLookupKey (m : LocalKeys) (key : String) : Nat :=
  match lookupAssoc m key with
  | some e => e.id
  | none => 0

/-- Modelled from the spec: `getVerifiedIDs()` snapshots the verified entries
as `(id, keyString)` pairs. -/
def lkGetVerifiedIDs (m : LocalKeys) : List (Nat × String) :=
  m.filterMap (fun p => if p.2.verified then some (p.2.id, p.1) else none)

/-- The KV-store operations the allocator issues, used both as trace entries
and as the domain of the failure-injection environment. -/
inductive KVOp where
  | lockOp (p : String)
  | listPfxOp (p : String)
  | listPfxIfLockedOp (p : String)
  | createOnlyOp (k v : String) (lease : Bool)
  | createOnlyIfLockedOp (k v : String) (lease : Bool)
  | updIfDiffOp (k v : String) (lease : Bool)
  | updIfDiffIfLockedOp (k v : String) (lease : Bool)
  | deleteOp (k : String)
  | deleteIfLockedOp (k : String)
  deriving DecidableEq, Repr

/-- Failure injection: `env op = true` makes the KV operation return a
transport error (modelled from the spec's KVTransport error kind). -/
abbrev Env := KVOp → Bool

/-- The per-allocator state carried by the embedded functions: the fields set
up by `NewAllocator` plus the mutable local components. -/
structure Alloc where
  basePfx : String
  idPfx : String
  valuePfx : String
  lockPfx : String
  lo : Nat
  hi : Nat
  prefixMask : Nat
  suffix : String
  localKeys : LocalKeys
  idPool : IDPool
  kvCache : List (String × Nat)
  backoffMinMs : Nat
  backoffFactor : Nat
  masterKeyProtection : Bool
  gcDisabled : Bool
  deriving DecidableEq, Repr

/-- The whole world the embedded code acts on: the allocator, the KV store, a
revision counter for writes, and the trace of issued KV operations. -/
structure St where
  a : Alloc
  kv : KV
  nextRev : Nat
  trace : List KVOp
  deriving DecidableEq, Repr

/-- Record one issued KV operation in the trace. -/
def addOp (st : St) (o : KVOp) : St :=
  { st with trace := st.trace ++ [o] }

/-- Modelled from the spec: `UpdateIfDifferent` semantics of the KV-store
adapter (spec §6.1) — write the value (bumping the revision) only when the
key is absent or stores different bytes. -/
def updIfDiffSt (st : St) (k v : String) : St :=
  match lookupAssoc st.kv k with
  | some e =>
    if e.data = v then st
    else { st with kv := kvWrite st.kv k v st.nextRev, nextRev := st.nextRev + 1 }
  | none => { st with kv := kvWrite st.kv k v st.nextRev, nextRev := st.nextRev + 1 }

/-- Modelled from the spec: `CreateOnly` semantics of the KV-store adapter
(spec §6.1) — create the key only when absent, reporting whether it was
created. -/
def createOnlySt (st : St) (k v : String) : Bool × St :=
  match lookupAssoc st.kv k with
  | some _ => (false, st)
  | none => (true, { st with kv := kvWrite st.kv k v st.nextRev, nextRev := st.nextRev + 1 })

/-- Cache lookup of `mainCache.get(key)`: the cached ID or `NoID = 0`. -/
def cacheGet (a : Alloc) (k : String) : Nat :=
  match lookupAssoc a.kvCache k with
  | some v => v
  | none => 0

/-- `mainCache.insert(key, id)` on the key-to-ID side used by the embedding. -/
def cacheInsert (st : St) (k : String) (id : Nat) : St :=
  { st with a := { st.a with kvCache := (k, id) :: eraseAssoc st.a.kvCache k } }

/-- Scan of the listed pairs in `GetNoCache`: return the decimal value of the
first pair whose key matches the prefix exactly and whose bytes parse as a
64-bit decimal; pairs failing either test are skipped. -/
def firstMatch (pfx : String) : KV → Option Nat
  | [] => none
  | (k, v) :: rest =>
    if prefixMatchesKey pfx k then
      match parseUint10 v.data with
      | some id => some id
      | none => firstMatch pfx rest
    else firstMatch pfx rest

/-- Embeds `GetNoCacheIfLocked`: prefix-list `value/<key>` under the held lock
and return the first exactly-matching, parseable pair's ID (`NoID = 0` with no
error when nothing matches). -/
def getNoCacheIfLockedF (env : Env) (key : String) (st : St) : Except Err Nat × St :=
  let pfx := pJoin st.a.valuePfx key
  let st1 := addOp st (.listPfxIfLockedOp pfx)
  if env (.listPfxIfLockedOp pfx) then (.error "kvstore list error", st1)
  else
    match firstMatch pfx (listPfx st1.kv pfx) with
    | some id => (.ok id, st1)
    | none => (.ok 0, st1)

/-- Embeds `GetNoCache` (identical scan, issued without a held lock). -/
def getNoCacheF (env : Env) (key : String) (st : St) : Except Err Nat × St :=
  let pfx := pJoin st.a.valuePfx key
  let st1 := addOp st (.listPfxOp pfx)
  if env (.listPfxOp pfx) then (.error "kvstore list error", st1)
  else
    match firstMatch pfx (listPfx st1.kv pfx) with
    | some id => (.ok id, st1)
    | none => (.ok 0, st1)

/-- Embeds `GetIfLocked`: main-cache hit first, then the no-cache path. -/
def getIfLockedF (env : Env) (key : String) (st : St) : Except Err Nat × St :=
  if cacheGet st.a key ≠ 0 then (.ok (cacheGet st.a key), st)
  else getNoCacheIfLockedF env key st

/-- Embeds `createValueNodeKey`: write the slave key
`value/<key>/<suffix> = id` with `UpdateIfDifferentIfLocked` (lease-attached),
then mark the local key verified.  A transport failure aborts before the
verify step. -/
def createValueNodeKeyF (env : Env) (k : String) (newID : Nat) (st : St) :
    Option Err × St :=
  let valueKey := pJoin (pJoin st.a.valuePfx k) st.a.suffix
  let op := KVOp.updIfDiffIfLockedOp valueKey (Nat.repr newID) true
  let st1 := addOp st op
  if env op then (some "unable to create value-node key", st1)
  else
    let st2 := updIfDiffSt st1 valueKey (Nat.repr newID)
    (none, { st2 with a := { st2.a with localKeys := lkVerify st2.a.localKeys k } })

/-- Embeds `selectAvailableID`: lease an ID, OR in the prefix mask, and return
the masked ID, its decimal string, the unmasked ID and the updated pool
(`(0, "", 0, pool)` on exhaustion). -/
def selectAvailableID (p : IDPool) (mask : Nat) : Nat × String × Nat × IDPool :=
  let r := leaseAvailableID p
  if r.1 = 0 then (0, "", 0, r.2)
  else (r.1 ||| mask, Nat.repr (r.1 ||| mask), r.1, r.2)

/-- The failure cleanup `releaseKeyAndID` in Branch C of `lockedAllocate`:
release the local key and return the unmasked ID to the pool. -/
def relKeyAndID (st : St) (k : String) (unmasked : Nat) : St :=
  { st with a := { st.a with
      localKeys := (lkRelease st.a.localKeys k).2,
      idPool := poolRelease st.a.idPool unmasked } }

/-- Embeds `lockedAllocate`: take the per-key distributed lock, look up a
global ID, then run Branch A (reuse the global ID), Branch B (re-create the
master from the local reference) or Branch C (lease a fresh ID, publish the
master with `CreateOnlyIfLocked`, then write the slave).  The process-local
mutexes are serialization devices with no state and are not modelled. -/
def lockedAllocateF (env : Env) (key : String) (st : St) :
    Except Err (Nat × Bool) × St :=
  let lockK := pJoin st.a.lockPfx (trimPfx key st.a.basePfx)
  let st0 := addOp st (.lockOp lockK)
  if env (.lockOp lockK) then (.error "unable to lock key", st0)
  else
    match getIfLockedF env key st0 with
    | (.error e, st1) => (.error e, st1)
    | (.ok v0, st1) =>
      let resB : Except Err Nat × St :=
        if v0 = 0 then
          let v1 := lkLookupKey st1.a.localKeys key
          if v1 ≠ 0 then
            let keyPath := pJoin st1.a.idPfx (Nat.repr v1)
            let op := KVOp.createOnlyIfLockedOp keyPath key false
            let st2 := addOp st1 op
            if env op then (.error "unable to create master key", st2)
            else
              match lookupAssoc st2.kv keyPath with
              | some _ => (.error "unable to create master key", st2)
              | none =>
                (.ok v1, { st2 with kv := kvWrite st2.kv keyPath key st2.nextRev,
                                    nextRev := st2.nextRev + 1 })
          else (.ok 0, st1)
        else
          let r := lkAllocate st1.a.localKeys key v0
          (.ok v0, { st1 with a := { st1.a with localKeys := r.2 } })
      match resB with
      | (.error e, st2) => (.error e, st2)
      | (.ok value, st2) =>
        if value ≠ 0 then
          match createValueNodeKeyF env key value st2 with
          | (some _, st3) =>
            (.error "unable to create slave key",
             { st3 with a := { st3.a with localKeys := (lkRelease st3.a.localKeys key).2 } })
          | (none, st3) => (.ok (value, false), st3)
        else
          let s := selectAvailableID st2.a.idPool st2.a.prefixMask
          if s.1 = 0 then (.error "no more available IDs in configured space", st2)
          else
            let id := s.1
            let unmasked := s.2.2.1
            let st3 := { st2 with a := { st2.a with idPool := s.2.2.2 } }
            let ar := lkAllocate st3.a.localKeys key id
            let st4 := { st3 with a := { st3.a with localKeys := ar.2 } }
            if id ≠ ar.1 then
              (.error "another writer has allocated this key", relKeyAndID st4 key unmasked)
            else
              let keyPath := pJoin st4.a.idPfx s.2.1
              let op := KVOp.createOnlyIfLockedOp keyPath key false
              let st5 := addOp st4 op
              if env op then (.error "unable to create master key", relKeyAndID st5 key unmasked)
              else
                match lookupAssoc st5.kv keyPath with
                | some _ => (.error "unable to create master key", relKeyAndID st5 key unmasked)
                | none =>
                  let st6 := { st5 with kv := kvWrite st5.kv keyPath key st5.nextRev,
                                        nextRev := st5.nextRev + 1 }
                  let st7 := { st6 with a := { st6.a with idPool := poolUse st6.a.idPool unmasked } }
                  match createValueNodeKeyF env key id st7 with
                  | (some _, st8) => (.error "slave key creation failed", relKeyAndID st8 key unmasked)
                  | (none, st8) => (.ok (id, true), st8)

/-- `maxAllocAttempts` from allocator.go. -/
def maxAllocAttempts : Nat := 16

/-- Observable outcome of `Allocate`: the returned value, the final state, and
bookkeeping for the retry loop — number of `lockedAllocate` attempts, the
completed backoff wait durations (milliseconds), and each failed attempt's
error in order. -/
structure AllocOut where
  res : Except Err (Nat × Bool)
  st : St
  attempts : Nat
  waitsMs : List Nat
  errs : List Err
  deriving Repr

/-- The retry loop of `Allocate`.  `ctx : Nat → Bool` is the cancellation
state at each successive context poll (two polls per failed attempt: the
`select` after the failure, then inside `boff.Wait`); the wait duration of
attempt `n` is `bMin * bFac ^ n`, modelled from the spec's exponential
backoff (the backoff package is not in the tree). -/
def allocLoop (env : Env) (ctx : Nat → Bool) (key : String) (bMin bFac : Nat) :
    Nat → Nat → Nat → St → Err → AllocOut
  | 0, _, _, st, prev => ⟨.error prev, st, 0, [], []⟩
  | fuel + 1, ai, pi, st, _ =>
    match lockedAllocateF env key st with
    | (.ok (v, isNew), st1) => ⟨.ok (v, isNew), cacheInsert st1 key v, 1, [], []⟩
    | (.error e, st1) =>
      if ctx pi then ⟨.error "key allocation cancelled", st1, 1, [], [e]⟩
      else if ctx (pi + 1) then ⟨.error "context cancelled during wait", st1, 1, [], [e]⟩
      else
        let rest := allocLoop env ctx key bMin bFac fuel (ai + 1) (pi + 2) st1 e
        ⟨rest.res, rest.st, rest.attempts + 1, bMin * bFac ^ ai :: rest.waitsMs, e :: rest.errs⟩

/-- Embeds `Allocate`: local fast path via `localKeys.use`, then up to
`maxAllocAttempts` tries of `lockedAllocate` with exponential backoff.  The
initial-list-done wait is taken as already complete. -/
def allocateF (env : Env) (ctx : Nat → Bool) (key : String) (st : St) : AllocOut :=
  let u := lkUse st.a.localKeys key
  if u.1 ≠ 0 then
    ⟨.ok (u.1, false),
     cacheInsert { st with a := { st.a with localKeys := u.2 } } key u.1, 0, [], []⟩
  else
    allocLoop env ctx key st.a.backoffMinMs st.a.backoffFactor maxAllocAttempts 0 0
      { st with a := { st.a with localKeys := u.2 } } ""

/-- Embeds `Release`: release the local reference; when it was the last local
use, delete the slave key, ignoring (only logging) a deletion failure.  The
result pair mirrors Go's `(lastUse, err)` return. -/
def releaseF (env : Env) (key : String) (st : St) : (Bool × Option Err) × St :=
  let r := lkRelease st.a.localKeys key
  let st1 := { st with a := { st.a with localKeys := r.2 } }
  if r.1.2 then ((r.1.1, some "unable to release key that is not owned"), st1)
  else if r.1.1 then
    let valueKey := pJoin (pJoin st1.a.valuePfx key) st1.a.suffix
    let st2 := addOp st1 (.deleteOp valueKey)
    if env (.deleteOp valueKey) then ((true, none), st2)
    else ((true, none), { st2 with kv := kvErase st2.kv valueKey })
  else ((false, none), st1)

/-- Embeds `recreateMasterKey`: re-assert the master key `id/<id>` and the
slave key `value/<value>/<suffix>`, with `CreateOnly` when the key is reliably
missing and `UpdateIfDifferent` otherwise; errors are only logged. -/
def recreateMasterKeyF (env : Env) (id : Nat) (value : String)
    (reliablyMissing : Bool) (st : St) : St :=
  let keyPath := pJoin st.a.idPfx (Nat.repr id)
  let valueKey := pJoin (pJoin st.a.valuePfx value) st.a.suffix
  let st1 :=
    if reliablyMissing then
      let op := KVOp.createOnlyOp keyPath value false
      let s := addOp st op
      if env op then s else (createOnlySt s keyPath value).2
    else
      let op := KVOp.updIfDiffOp keyPath value false
      let s := addOp st op
      if env op then s else updIfDiffSt s keyPath value
  if reliablyMissing then
    let op := KVOp.createOnlyOp valueKey (Nat.repr id) true
    let s := addOp st1 op
    if env op then s else (createOnlySt s valueKey (Nat.repr id)).2
  else
    let op := KVOp.updIfDiffOp valueKey (Nat.repr id) true
    let s := addOp st1 op
    if env op then s else updIfDiffSt s valueKey (Nat.repr id)

/-- Embeds `syncLocalKeys`: snapshot the verified local entries and re-create
each master/slave pair with `reliablyMissing = false`; always returns nil. -/
def syncLocalKeysF (env : Env) (st : St) : Except Err Unit × St :=
  (.ok (),
   (lkGetVerifiedIDs st.a.localKeys).foldl
     (fun s iv => recreateMasterKeyF env iv.1 iv.2 false s) st)

/-- The two KV operations `recreateMasterKeyF` issues for one verified entry
during the periodic sync (`reliablyMissing = false`). -/
def syncOpsFor (a : Alloc) (iv : Nat × String) : List KVOp :=
  [.updIfDiffOp (pJoin a.idPfx (Nat.repr iv.1)) iv.2 false,
   .updIfDiffOp (pJoin (pJoin a.valuePfx iv.2) a.suffix) (Nat.repr iv.1) true]

/-- Whether some pair listed under `valuePrefix/<data>` matches that prefix
exactly — the `hasUsers` scan of `RunGC`. -/
def hasMatchingSlave (kv : KV) (a : Alloc) (data : String) : Bool :=
  (listPfx kv (pJoin a.valuePfx data)).any
    (fun e => prefixMatchesKey (pJoin a.valuePfx data) e.1)

/-- Result of `RunGC`: the Go return value (stale-key map or error), plus
bookkeeping of which master keys were actually deleted, and the final state. -/
structure GCOut where
  res : Except Err (List (String × Nat))
  deleted : List String
  st : St
  deriving Repr

/-- The per-master loop body of `RunGC`, iterating over the listed master
records.  A lock or list failure skips the entry; a master with no
exactly-matching slave is deleted when the previous round recorded the same
revision, and recorded as stale otherwise. -/
def runGCLoop (env : Env) (prev : List (String × Nat)) :
    List (String × KVEntry) → St → List (String × Nat) → List String →
    List (String × Nat) × List String × St
  | [], st, sk, dl => (sk, dl, st)
  | (key, v) :: rest, st, sk, dl =>
    let lockK := pJoin st.a.lockPfx (trimPfx key st.a.basePfx)
    let st1 := addOp st (.lockOp lockK)
    if env (.lockOp lockK) then runGCLoop env prev rest st1 sk dl
    else
      let vkPfx := pJoin st1.a.valuePfx v.data
      let st2 := addOp st1 (.listPfxIfLockedOp vkPfx)
      if env (.listPfxIfLockedOp vkPfx) then runGCLoop env prev rest st2 sk dl
      else
        let hasUsers := hasMatchingSlave st2.kv st2.a v.data
        if hasUsers then runGCLoop env prev rest st2 sk dl
        else
          match lookupAssoc prev key with
          | some rev =>
            if rev = v.modRev then
              let st3 := addOp st2 (.deleteIfLockedOp key)
              if env (.deleteIfLockedOp key) then runGCLoop env prev rest st3 sk dl
              else runGCLoop env prev rest { st3 with kv := kvErase st3.kv key } sk (dl ++ [key])
            else runGCLoop env prev rest st2 (sk ++ [(key, v.modRev)]) dl
          | none => runGCLoop env prev rest st2 (sk ++ [(key, v.modRev)]) dl

/-- Embeds `RunGC`: list all master records under `id/`, then process each as
in `runGCLoop`, returning the stale-key map for the next round. -/
def runGCF (env : Env) (prev : List (String × Nat)) (st : St) : GCOut :=
  let st1 := addOp st (.listPfxOp st.a.idPfx)
  if env (.listPfxOp st.a.idPfx) then ⟨.error "list failed", [], st1⟩
  else
    let r := runGCLoop env prev (listPfx st1.kv st.a.idPfx) st1 [] []
    ⟨.ok r.1, r.2.1, r.2.2⟩

/-- The stale-key list a `RunGC` result carries (empty on error). -/
def staleOf (g : GCOut) : List (String × Nat) :=
  match g.res with
  | .ok s => s
  | .error _ => []

/-- The GC decision for one listed master: delete it this round. -/
def gcDelB (kv : KV) (a : Alloc) (prev : List (String × Nat)) (e : String × KVEntry) : Bool :=
  !(hasMatchingSlave kv a e.2.data) && (lookupAssoc prev e.1 == some e.2.modRev)

/-- The GC decision for one listed master: record it as stale this round. -/
def gcStaleB (kv : KV) (a : Alloc) (prev : List (String × Nat)) (e : String × KVEntry) : Bool :=
  !(hasMatchingSlave kv a e.2.data) && !(lookupAssoc prev e.1 == some e.2.modRev)

/-- Remove every key in `D` from the store. -/
def removeKeys (kv : KV) (D : List String) : KV :=
  kv.filter (fun e => !(D.contains e.1))

/-- The allocator options of `NewAllocator`; `WithEvents` carries no state the
embedding tracks. -/
inductive AllocOpt where
  | withSuffix (s : String)
  | withMin (n : Nat)
  | withMax (n : Nat)
  | withPrefixMask (n : Nat)
  | withMasterKeyProtection
  | withoutGC
  deriving DecidableEq, Repr

/-- Apply one allocator option. -/
def applyOpt (a : Alloc) : AllocOpt → Alloc
  | .withSuffix s => { a with suffix := s }
  | .withMin n => { a with lo := n }
  | .withMax n => { a with hi := n }
  | .withPrefixMask n => { a with prefixMask := n }
  | .withMasterKeyProtection => { a with masterKeyProtection := true }
  | .withoutGC => { a with gcDisabled := true }

/-- The allocator record as initialized by `NewAllocator` before options are
applied: derived prefixes, `min = 1`, `max = 2^64 - 1` (Go `^uint64(0)`), the
20 ms / factor-2 backoff template, and the process suffix (in Go the first 10
characters of a fresh UUID, here a parameter). -/
def defaultAlloc (dsuffix basePath : String) : Alloc :=
  { basePfx := basePath
    idPfx := pJoin basePath "id"
    valuePfx := pJoin basePath "value"
    lockPfx := pJoin basePath "locks"
    lo := 1
    hi := 2 ^ 64 - 1
    prefixMask := 0
    suffix := dsuffix
    localKeys := []
    idPool := ⟨1, 2 ^ 64 - 1, [], [], []⟩
    kvCache := []
    backoffMinMs := 20
    backoffFactor := 2
    masterKeyProtection := false
    gcDisabled := false }

/-- Embeds `NewAllocator`: fail when the KV client is not configured, when the
effective suffix is the string `"<nil>"`, when the minimum ID is below 1, or
when the maximum is not strictly above the minimum; otherwise build the ID
pool over `[min, max]` and return the allocator. -/
def newAllocatorF (clientOk : Bool) (dsuffix basePath : String)
    (opts : List AllocOpt) : Except Err Alloc :=
  if !clientOk then .error "kvstore client not configured"
  else
    let a := opts.foldl applyOpt (defaultAlloc dsuffix basePath)
    if a.suffix = "<nil>" then .error "allocator suffix is <nil> and unlikely unique"
    else if a.lo < 1 then .error "minimum ID must be >= 1"
    else if a.hi ≤ a.lo then .error "maximum ID must be greater than minimum ID"
    else .ok { a with idPool := ⟨a.lo, a.hi, [], [], []⟩ }

/-- Embeds `NewAllocatorForGC`: only the three prefixes are populated. -/
def newAllocatorForGC (basePath : String) : Alloc :=
  { basePfx := basePath
    idPfx := pJoin basePath "id"
    valuePfx := pJoin basePath "value"
    lockPfx := pJoin basePath "locks"
    lo := 0
    hi := 0
    prefixMask := 0
    suffix := ""
    localKeys := []
    idPool := ⟨0, 0, [], [], []⟩
    kvCache := []
    backoffMinMs := 0
    backoffFactor := 0
    masterKeyProtection := false
    gcDisabled := false }

/-- Environment injecting no failures. -/
def envOK : Env := fun _ => false

/-- Environment failing every KV operation. -/
def envFailAll : Env := fun _ => true

/-- A context that is never cancelled. -/
def ctxNever : Nat → Bool := fun _ => false

/-- Concrete small allocator for the end-to-end scenarios: range `[1, 3]`,
suffix `n1`, base path `base`. -/
def allocScenario : Alloc :=
  { basePfx := "base"
    idPfx := "base/id"
    valuePfx := "base/value"
    lockPfx := "base/locks"
    lo := 1
    hi := 3
    prefixMask := 0
    suffix := "n1"
    localKeys := []
    idPool := ⟨1, 3, [], [], []⟩
    kvCache := []
    backoffMinMs := 20
    backoffFactor := 2
    masterKeyProtection := false
    gcDisabled := false }

/-- Scenario start state: the small allocator over an empty store. -/
def scenSt : St := ⟨allocScenario, [], 0, []⟩

/-- Store for the aliasing-guard scenario S6: slaves for `label;foo;` (ID 7)
and `label;foo;bar;` (ID 9), with the aliasing pair listed first. -/
def stAlias : St :=
  ⟨allocScenario,
   [("base/value/label;foo;bar;/n1", ⟨"9", 2⟩), ("base/value/label;foo;/n1", ⟨"7", 1⟩)],
   3, []⟩

/-- Store holding a single slave for key `a` whose bytes are not a decimal
number. -/
def stCorrupt : St :=
  ⟨allocScenario, [("base/value/a/n1", ⟨"notanumber", 1⟩)], 2, []⟩

/-- Whether a constructor result is a successfully built allocator. -/
def exceptIsOk : Except Err Alloc → Bool
  | .ok _ => true
  | .error _ => false

/-- GC scenario: two masters under `base/id`, one backed by a slave; the
previous round recorded master 2 at its current revision. -/
def stGC : St :=
  ⟨newAllocatorForGC "base",
   [("base/id/1", ⟨"a", 5⟩), ("base/id/2", ⟨"b", 6⟩), ("base/value/a/n1", ⟨"1", 7⟩)],
   8, []⟩

/-- Previous-round stale map for the GC scenario. -/
def prevGC : List (String × Nat) := [("base/id/2", 6)]

/-- State used by the release witnesses: one verified local reference. -/
def stRel : St :=
  ⟨{ allocScenario with localKeys := [("k", ⟨5, 1, true⟩)] },
   [("base/value/k/n1", ⟨"5", 0⟩)], 1, []⟩

/-- Scenario S3, step 1: allocate `a` on the fresh `[1,3]` allocator. -/
def scenO1 : AllocOut := allocateF envOK ctxNever "a" scenSt

/-- Scenario S3, step 2: allocate `b`. -/
def scenO2 : AllocOut := allocateF envOK ctxNever "b" scenO1.st

/-- Scenario S3, step 3: allocate `c`. -/
def scenO3 : AllocOut := allocateF envOK ctxNever "c" scenO2.st

/-- Scenario S3, step 4: allocate `d` with the pool exhausted. -/
def scenO4 : AllocOut := allocateF envOK ctxNever "d" scenO3.st

/-- An allocator over `[1,3]` whose three IDs are all in use. -/
def allocExhausted : Alloc :=
  { allocScenario with idPool := ⟨1, 3, [], [1, 2, 3], []⟩ }

/-- Environment that fails exactly the slave-key conditional writes, leaving
master-key creation and listing intact. -/
def envSlaveFail : Env := fun op =>
  match op with
  | .updIfDiffIfLockedOp _ _ _ => true
  | _ => false

theorem addOp_a (st : St) (o : KVOp) : (addOp st o).a = st.a := rfl

theorem addOp_kv (st : St) (o : KVOp) : (addOp st o).kv = st.kv := rfl

theorem addOp_nextRev (st : St) (o : KVOp) : (addOp st o).nextRev = st.nextRev := rfl

theorem addOp_trace (st : St) (o : KVOp) : (addOp st o).trace = st.trace ++ [o] := rfl

theorem updIfDiffSt_a (st : St) (k v : String) : (updIfDiffSt st k v).a = st.a := by
  unfold updIfDiffSt
  cases lookupAssoc st.kv k with
  | none => rfl
  | some e => by_cases h : e.data = v <;> simp [h]

theorem updIfDiffSt_trace (st : St) (k v : String) : (updIfDiffSt st k v).trace = st.trace := by
  unfold updIfDiffSt
  cases lookupAssoc st.kv k with
  | none => rfl
  | some e => by_cases h : e.data = v <;> simp [h]

theorem createOnlySt_a (st : St) (k v : String) : (createOnlySt st k v).2.a = st.a := by
  unfold createOnlySt
  cases lookupAssoc st.kv k <;> rfl

theorem createOnlySt_trace (st : St) (k v : String) : (createOnlySt st k v).2.trace = st.trace := by
  unfold createOnlySt
  cases lookupAssoc st.kv k <;> rfl

theorem lookupAssoc_eq_none_forall {α : Type} {l : List (String × α)} {key : String}
    (h : lookupAssoc l key = none) : ∀ e ∈ l, e.1 ≠ key := by
  induction l with
  | nil => simp
  | cons e rest ih =>
    intro x hx
    rw [lookupAssoc] at h
    by_cases hk : e.1 = key
    · simp [hk] at h
    · simp [hk] at h
      rcases List.mem_cons.mp hx with rfl | hx
      · exact hk
      · exact ih h x hx

theorem eraseAssoc_of_none {α : Type} {l : List (String × α)} {key : String}
    (h : lookupAssoc l key = none) : eraseAssoc l key = l := by
  rw [eraseAssoc, List.filter_eq_self]
  intro e he
  simpa using lookupAssoc_eq_none_forall h e he

theorem firstMatch_some {pfx : String} {l : KV} {id : Nat}
    (h : firstMatch pfx l = some id) :
    ∃ e ∈ l, prefixMatchesKey pfx e.1 = true ∧ parseUint10 e.2.data = some id := by
  induction l with
  | nil => simp [firstMatch] at h
  | cons e rest ih =>
    obtain ⟨k, v⟩ := e
    rw [firstMatch] at h
    by_cases hm : prefixMatchesKey pfx k
    · rw [if_pos hm] at h
      cases hp : parseUint10 v.data with
      | some i =>
        rw [hp] at h
        exact ⟨(k, v), by simp, hm, by simp [hp, ← Option.some_inj.mp h]⟩
      | none =>
        rw [hp] at h
        obtain ⟨e', he', hm', hp'⟩ := ih h
        exact ⟨e', by simp [he'], hm', hp'⟩
    · rw [if_neg hm] at h
      obtain ⟨e', he', hm', hp'⟩ := ih h
      exact ⟨e', by simp [he'], hm', hp'⟩

theorem firstMatch_none {pfx : String} {l : KV}
    (h : ∀ e ∈ l, prefixMatchesKey pfx e.1 = false ∨ parseUint10 e.2.data = none) :
    firstMatch pfx l = none := by
  induction l with
  | nil => rfl
  | cons e rest ih =>
    obtain ⟨k, v⟩ := e
    rw [firstMatch]
    rcases h (k, v) (by simp) with hm | hp
    · rw [if_neg (by simp [hm])]
      exact ih fun e he => h e (by simp [he])
    · by_cases hm : prefixMatchesKey pfx k
      · rw [if_pos hm, hp]
        exact ih fun e he => h e (by simp [he])
      · rw [if_neg hm]
        exact ih fun e he => h e (by simp [he])

/-- C3: on a cache miss `GetNoCache(key)` lists `valuePrefix/<key>` and
returns the decimal-parsed ID only of a listed pair whose kvstore key matches
the prefix exactly (last slash at index `len(prefix)`); pairs with more than
one additional path segment are never returned; when no listed pair matches
it returns `NoID` with no error; and with slaves at `value/label;foo;/n1` and
`value/label;foo;bar;/n1`, looking up `label;foo;` returns only the former's
ID. -/
theorem getNoCache_exact_segment_only :
    (∀ (env : Env) (key : String) (st : St) (id : Nat),
      (getNoCacheF env key st).1 = .ok id → id ≠ 0 →
      ∃ e ∈ listPfx st.kv (pJoin st.a.valuePfx key),
        prefixMatchesKey (pJoin st.a.valuePfx key) e.1 = true ∧
        parseUint10 e.2.data = some id) ∧
    (∀ (env : Env) (key : String) (st : St),
      env (KVOp.listPfxOp (pJoin st.a.valuePfx key)) = false →
      (∀ e ∈ listPfx st.kv (pJoin st.a.valuePfx key),
        prefixMatchesKey (pJoin st.a.valuePfx key) e.1 = false) →
      (getNoCacheF env key st).1 = .ok 0) ∧
    (getNoCacheF envOK "label;foo;" stAlias).1 = .ok 7 := by
  refine ⟨?_, ?_, rfl⟩
  · intro env key st id h hne
    simp only [getNoCacheF] at h
    by_cases henv : env (KVOp.listPfxOp (pJoin st.a.valuePfx key))
    · simp [henv] at h
    · simp only [henv, Bool.false_eq_true, if_false] at h
      cases hf : firstMatch (pJoin st.a.valuePfx key) (listPfx (addOp st (KVOp.listPfxOp (pJoin st.a.valuePfx key))).kv (pJoin st.a.valuePfx key)) with
      | some i =>
        rw [hf] at h
        simp only [addOp_kv] at hf
        obtain ⟨e, he, hm, hp⟩ := firstMatch_some hf
        have hii : i = id := by injection h
        exact ⟨e, he, hm, hii ▸ hp⟩
      | none =>
        rw [hf] at h
        have : (0 : Nat) = id := by injection h
        exact absurd this.symm hne
  · intro env key st henv hall
    simp only [getNoCacheF, henv, Bool.false_eq_true, if_false, addOp_kv]
    rw [firstMatch_none (fun e he => Or.inl (hall e he))]

/-- Witness for C3: the first conjunct applied to the aliasing store produces
the exactly-matching pair holding ID 7. -/
theorem getNoCache_exact_segment_only_witness :
    ∃ e ∈ listPfx stAlias.kv (pJoin stAlias.a.valuePfx "label;foo;"),
      prefixMatchesKey (pJoin stAlias.a.valuePfx "label;foo;") e.1 = true ∧
      parseUint10 e.2.data = some 7 :=
  getNoCache_exact_segment_only.1 envOK "label;foo;" stAlias 7 (by rfl) (by decide)

/-- C9: `GetNoCache` and `GetNoCacheIfLocked` silently skip prefix-matching
pairs whose bytes do not parse as a decimal `uint64`; when every listed pair
is non-matching or unparseable the result is `(NoID, nil)`, so a corrupted
slave value is indistinguishable from an unallocated key. -/
theorem getNoCache_skips_unparseable :
    (∀ (env : Env) (key : String) (st : St),
      env (KVOp.listPfxOp (pJoin st.a.valuePfx key)) = false →
      (∀ e ∈ listPfx st.kv (pJoin st.a.valuePfx key),
        prefixMatchesKey (pJoin st.a.valuePfx key) e.1 = false ∨
        parseUint10 e.2.data = none) →
      (getNoCacheF env key st).1 = .ok 0) ∧
    (∀ (env : Env) (key : String) (st : St),
      env (KVOp.listPfxIfLockedOp (pJoin st.a.valuePfx key)) = false →
      (∀ e ∈ listPfx st.kv (pJoin st.a.valuePfx key),
        prefixMatchesKey (pJoin st.a.valuePfx key) e.1 = false ∨
        parseUint10 e.2.data = none) →
      (getNoCacheIfLockedF env key st).1 = .ok 0) ∧
    (getNoCacheF envOK "a" stCorrupt).1 = (getNoCacheF envOK "a" scenSt).1 := by
  refine ⟨?_, ?_, rfl⟩
  · intro env key st henv hall
    simp only [getNoCacheF, henv, Bool.false_eq_true, if_false, addOp_kv]
    rw [firstMatch_none hall]
  · intro env key st henv hall
    simp only [getNoCacheIfLockedF, henv, Bool.false_eq_true, if_false, addOp_kv]
    rw [firstMatch_none hall]

/-- Witness for C9: on the store whose only slave for `a` holds corrupted
bytes, the lookup returns `NoID` with no error. -/
theorem getNoCache_skips_unparseable_witness :
    (getNoCacheF envOK "a" stCorrupt).1 = .ok 0 :=
  getNoCache_skips_unparseable.1 envOK "a" stCorrupt (by rfl) (by decide)

/-- C7: `NewAllocator` fails exactly when the KV client is nil, the effective
suffix is `"<nil>"`, the effective minimum is below 1, or the effective
maximum is not strictly above the minimum; the defaults are `min = 1` and
`max = 2^64 - 1`, so construction with no options passes these checks. -/
theorem newAllocator_failure_conditions (clientOk : Bool) (dsuffix basePath : String)
    (opts : List AllocOpt) :
    (exceptIsOk (newAllocatorF clientOk dsuffix basePath opts) = false ↔
      (clientOk = false ∨
       (opts.foldl applyOpt (defaultAlloc dsuffix basePath)).suffix = "<nil>" ∨
       (opts.foldl applyOpt (defaultAlloc dsuffix basePath)).lo < 1 ∨
       (opts.foldl applyOpt (defaultAlloc dsuffix basePath)).hi ≤
         (opts.foldl applyOpt (defaultAlloc dsuffix basePath)).lo)) ∧
    (defaultAlloc dsuffix basePath).lo = 1 ∧
    (defaultAlloc dsuffix basePath).hi = 2 ^ 64 - 1 ∧
    (clientOk = true → dsuffix ≠ "<nil>" →
      exceptIsOk (newAllocatorF clientOk dsuffix basePath []) = true) := by
  refine ⟨?_, rfl, rfl, ?_⟩
  · cases clientOk with
    | false => simp [newAllocatorF, exceptIsOk]
    | true =>
      simp only [newAllocatorF, Bool.not_true, Bool.false_eq_true, if_false]
      split_ifs with h1 h2 h3 <;> simp_all [exceptIsOk]
  · intro hc hs
    subst hc
    simp only [newAllocatorF, Bool.not_true, Bool.false_eq_true, if_false, List.foldl_nil]
    have h1 : (defaultAlloc dsuffix basePath).suffix = dsuffix := rfl
    rw [if_neg (by rw [h1]; exact hs)]
    norm_num [defaultAlloc, exceptIsOk]

/-- Witness for C7: with a configured client and a usable suffix, default
construction succeeds. -/
theorem newAllocator_failure_conditions_witness :
    exceptIsOk (newAllocatorF true "n1" "base" []) = true :=
  (newAllocator_failure_conditions true "n1" "base" []).2.2.2 rfl (by decide)

/-- C8: when `localKeys.release` reports last local use, `Release` issues the
delete of the slave key `value/<k>/<suffix>` and returns `(lastUse = true,
nil)` whether or not that delete fails; a failed slave-key deletion is
indistinguishable from a successful global release at the return value. -/
theorem release_ignores_delete_failure (env : Env) (key : String) (st : St)
    (h : (lkRelease st.a.localKeys key).1 = (true, false)) :
    (releaseF env key st).1 = (true, none) ∧
    KVOp.deleteOp (pJoin (pJoin st.a.valuePfx key) st.a.suffix) ∈ (releaseF env key st).2.trace ∧
    (releaseF envFailAll key st).1 = (releaseF envOK key st).1 := by
  have h1 : (lkRelease st.a.localKeys key).1.1 = true := by rw [h]
  have h2 : (lkRelease st.a.localKeys key).1.2 = false := by rw [h]
  refine ⟨?_, ?_, ?_⟩
  · simp only [releaseF, h1, h2, Bool.false_eq_true, if_false, if_true]
    split <;> rfl
  · simp only [releaseF, h1, h2, Bool.false_eq_true, if_false, if_true]
    split <;> simp [addOp]
  · simp [releaseF, h1, h2, envFailAll, envOK]

/-- Witness for C8: a single verified local reference with a failing delete
still reports `(true, nil)`. -/
theorem release_ignores_delete_failure_witness :
    (releaseF envFailAll "k" stRel).1 = (true, none) ∧
    KVOp.deleteOp (pJoin (pJoin stRel.a.valuePfx "k") stRel.a.suffix) ∈
      (releaseF envFailAll "k" stRel).2.trace ∧
    (releaseF envFailAll "k" stRel).1 = (releaseF envOK "k" stRel).1 :=
  release_ignores_delete_failure envFailAll "k" stRel (by rfl)

theorem recreateMasterKeyF_a (env : Env) (id : Nat) (value : String) (rm : Bool) (st : St) :
    (recreateMasterKeyF env id value rm st).a = st.a := by
  unfold recreateMasterKeyF
  cases rm <;>
    simp only [Bool.false_eq_true, if_false, if_true] <;>
    split_ifs <;>
    simp [addOp_a, updIfDiffSt_a, createOnlySt_a]

theorem recreateMasterKeyF_trace_missing (env : Env) (id : Nat) (value : String) (st : St) :
    (recreateMasterKeyF env id value true st).trace =
      st.trace ++ [KVOp.createOnlyOp (pJoin st.a.idPfx (Nat.repr id)) value false,
                   KVOp.createOnlyOp (pJoin (pJoin st.a.valuePfx value) st.a.suffix) (Nat.repr id) true] := by
  unfold recreateMasterKeyF
  simp only [if_true]
  split_ifs <;>
    simp [addOp_trace, createOnlySt_trace, createOnlySt_a, addOp_a, List.append_assoc]

theorem recreateMasterKeyF_trace_notMissing (env : Env) (id : Nat) (value : String) (st : St) :
    (recreateMasterKeyF env id value false st).trace =
      st.trace ++ [KVOp.updIfDiffOp (pJoin st.a.idPfx (Nat.repr id)) value false,
                   KVOp.updIfDiffOp (pJoin (pJoin st.a.valuePfx value) st.a.suffix) (Nat.repr id) true] := by
  unfold recreateMasterKeyF
  simp only [Bool.false_eq_true, if_false]
  split_ifs <;>
    simp [addOp_trace, updIfDiffSt_trace, updIfDiffSt_a, addOp_a, List.append_assoc]

theorem foldRecreate_a (env : Env) (l : List (Nat × String)) (st : St) :
    (l.foldl (fun s iv => recreateMasterKeyF env iv.1 iv.2 false s) st).a = st.a := by
  induction l generalizing st with
  | nil => rfl
  | cons iv l ih => rw [List.foldl_cons, ih, recreateMasterKeyF_a]

theorem foldRecreate_trace (env : Env) (l : List (Nat × String)) (st : St) :
    (l.foldl (fun s iv => recreateMasterKeyF env iv.1 iv.2 false s) st).trace =
      st.trace ++ l.flatMap (syncOpsFor st.a) := by
  induction l generalizing st with
  | nil => simp
  | cons iv l ih =>
    rw [List.foldl_cons, ih, recreateMasterKeyF_trace_notMissing, recreateMasterKeyF_a]
    simp [syncOpsFor, List.append_assoc]

/-- C2: on each periodic local-key sync, for every entry of the verified
snapshot the allocator attempts to re-create both the master key `id/<id>`
and the slave key `value/<k>/<suffix>`; `recreateMasterKey` issues
"create only if absent" writes when the key is flagged reliably missing and
"update if different" writes exactly when it is flagged as not reliably
missing — which is how `syncLocalKeys` always flags it. -/
theorem syncLocalKeys_conditional_writes (env : Env) (st : St) :
    (syncLocalKeysF env st).1 = .ok () ∧
    (syncLocalKeysF env st).2.trace =
      st.trace ++ (lkGetVerifiedIDs st.a.localKeys).flatMap (syncOpsFor st.a) ∧
    (∀ (id : Nat) (value : String) (st2 : St),
      (recreateMasterKeyF env id value true st2).trace =
        st2.trace ++ [KVOp.createOnlyOp (pJoin st2.a.idPfx (Nat.repr id)) value false,
                      KVOp.createOnlyOp (pJoin (pJoin st2.a.valuePfx value) st2.a.suffix) (Nat.repr id) true]) ∧
    (∀ (id : Nat) (value : String) (st2 : St),
      (recreateMasterKeyF env id value false st2).trace =
        st2.trace ++ [KVOp.updIfDiffOp (pJoin st2.a.idPfx (Nat.repr id)) value false,
                      KVOp.updIfDiffOp (pJoin (pJoin st2.a.valuePfx value) st2.a.suffix) (Nat.repr id) true]) :=
  ⟨rfl, foldRecreate_trace env _ st,
   fun id value st2 => recreateMasterKeyF_trace_missing env id value st2,
   fun id value st2 => recreateMasterKeyF_trace_notMissing env id value st2⟩

theorem lkAllocate_of_none {m : LocalKeys} {key : String} (id : Nat)
    (h : lookupAssoc m key = none) :
    lkAllocate m key id = (id, m ++ [(key, ⟨id, 1, false⟩)]) := by
  induction m with
  | nil => rfl
  | cons e rest ih =>
    obtain ⟨k, v⟩ := e
    rw [lookupAssoc] at h
    by_cases hk : k = key
    · simp [hk] at h
    · rw [if_neg hk] at h
      rw [lkAllocate, if_neg hk, ih h]
      simp

theorem lookupAssoc_append_self {α : Type} {m : List (String × α)} {key : String} (e : α)
    (h : lookupAssoc m key = none) :
    lookupAssoc (m ++ [(key, e)]) key = some e := by
  induction m with
  | nil => simp [lookupAssoc]
  | cons x rest ih =>
    obtain ⟨k, v⟩ := x
    rw [lookupAssoc] at h
    by_cases hk : k = key
    · simp [hk] at h
    · rw [if_neg hk] at h
      rw [List.cons_append, lookupAssoc, if_neg hk, ih h]

theorem eraseAssoc_append_self {α : Type} {m : List (String × α)} {key : String} (e : α)
    (h : lookupAssoc m key = none) :
    eraseAssoc (m ++ [(key, e)]) key = m := by
  rw [eraseAssoc, List.filter_append]
  have h1 : List.filter (fun x => decide (x.1 ≠ key)) m = m := by
    rw [List.filter_eq_self]
    intro x hx
    simpa using lookupAssoc_eq_none_forall h x hx
  have h2 : List.filter (fun x => decide (x.1 ≠ key)) [(key, e)] = [] := by simp
  rw [h1, h2, List.append_nil]

theorem lookupAssoc_kvWrite_self (kv : KV) (k d : String) (r : Nat) :
    lookupAssoc (kvWrite kv k d r) k = some ⟨d, r⟩ := by
  induction kv with
  | nil => simp [kvWrite, lookupAssoc]
  | cons e rest ih =>
    obtain ⟨k', v⟩ := e
    rw [kvWrite]
    by_cases hk : k' = k
    · rw [if_pos hk, lookupAssoc, if_pos rfl]
    · rw [if_neg hk, lookupAssoc, if_neg hk, ih]

/-- Branch C of `lockedAllocate` when the slave-key write fails after the
master key was successfully created: the attempt returns the slave-creation
error, the final state still holds the freshly written master record, the
only KV operations issued are the lock, the listing, the master create and
the failed slave update (no delete), and the ID pool is back to its
pre-attempt contents. -/
theorem lockedAllocate_branchC_slavefail
    (env : Env) (a : Alloc) (kv : KV) (n : Nat) (tr : List KVOp) (key : String) (i : Nat)
    (hc : lookupAssoc a.kvCache key = none)
    (hfm : firstMatch (pJoin a.valuePfx key) (listPfx kv (pJoin a.valuePfx key)) = none)
    (hlk : lookupAssoc a.localKeys key = none)
    (hlease : leaseAvailableID a.idPool = (i, { a.idPool with leased := i :: a.idPool.leased }))
    (hi0 : i ≠ 0)
    (hfree : poolIsFree a.idPool i = true)
    (hmask : i ||| a.prefixMask ≠ 0)
    (hmp : lookupAssoc kv (pJoin a.idPfx (Nat.repr (i ||| a.prefixMask))) = none)
    (he1 : env (.lockOp (pJoin a.lockPfx (trimPfx key a.basePfx))) = false)
    (he2 : env (.listPfxIfLockedOp (pJoin a.valuePfx key)) = false)
    (he3 : env (.createOnlyIfLockedOp (pJoin a.idPfx (Nat.repr (i ||| a.prefixMask))) key false) = false)
    (he4 : env (.updIfDiffIfLockedOp (pJoin (pJoin a.valuePfx key) a.suffix)
                 (Nat.repr (i ||| a.prefixMask)) true) = true) :
    lockedAllocateF env key ⟨a, kv, n, tr⟩ =
      (.error "slave key creation failed",
       ⟨a, kvWrite kv (pJoin a.idPfx (Nat.repr (i ||| a.prefixMask))) key n, n + 1,
        tr ++ [.lockOp (pJoin a.lockPfx (trimPfx key a.basePfx)),
               .listPfxIfLockedOp (pJoin a.valuePfx key),
               .createOnlyIfLockedOp (pJoin a.idPfx (Nat.repr (i ||| a.prefixMask))) key false,
               .updIfDiffIfLockedOp (pJoin (pJoin a.valuePfx key) a.suffix)
                 (Nat.repr (i ||| a.prefixMask)) true]⟩) := by
  have hca : cacheGet a key = 0 := by simp [cacheGet, hc]
  have hlkl : lkLookupKey a.localKeys key = 0 := by simp [lkLookupKey, hlk]
  have halloc := lkAllocate_of_none (i ||| a.prefixMask) hlk
  have hnotleased : a.idPool.leased.contains i = false := by
    simp only [poolIsFree, Bool.and_eq_true, Bool.not_eq_true'] at hfree
    exact hfree.1.1.2
  have hpu : poolUse { a.idPool with leased := i :: a.idPool.leased } i =
      ⟨a.idPool.lo, a.idPool.hi, a.idPool.leased, i :: a.idPool.used, a.idPool.removed⟩ := by
    simp [poolUse, List.erase_cons_head]
  have hpr : poolRelease ⟨a.idPool.lo, a.idPool.hi, a.idPool.leased, i :: a.idPool.used, a.idPool.removed⟩ i =
      a.idPool := by
    simp only [poolRelease, List.erase_cons_head]
    rw [List.erase_of_not_mem (by simpa using hnotleased)]
  have hlkRel : lkRelease (a.localKeys ++ [(key, ⟨i ||| a.prefixMask, 1, false⟩)]) key =
      ((true, false), a.localKeys) := by
    rw [lkRelease, lookupAssoc_append_self _ hlk]
    simp [eraseAssoc_append_self _ hlk]
  simp only [lockedAllocateF, getIfLockedF, getNoCacheIfLockedF, createValueNodeKeyF,
    selectAvailableID, relKeyAndID, addOp, hca, hlkl, hfm, hmp, hlease, halloc, hlkRel,
    hpu, hpr, he1, he2, he3, he4, ne_eq, Bool.false_eq_true, if_false, if_true,
    not_true_eq_false, not_false_eq_true, ite_true, ite_false, hi0, hmask,
    List.append_assoc, List.singleton_append, List.cons_append, List.nil_append]

/-- C4: in Branch C of `lockedAllocate`, when slave-key creation fails after
the master key `id/<id>` was created with `CreateOnlyIfLocked`, the attempt
returns an error while the published master record stays in the store, and
the issued KV operations contain no delete: the master is leaked for the
garbage collector. -/
theorem lockedAllocate_leaks_master_on_slave_failure
    (env : Env) (a : Alloc) (kv : KV) (n : Nat) (tr : List KVOp) (key : String) (i : Nat)
    (hc : lookupAssoc a.kvCache key = none)
    (hfm : firstMatch (pJoin a.valuePfx key) (listPfx kv (pJoin a.valuePfx key)) = none)
    (hlk : lookupAssoc a.localKeys key = none)
    (hlease : leaseAvailableID a.idPool = (i, { a.idPool with leased := i :: a.idPool.leased }))
    (hi0 : i ≠ 0)
    (hfree : poolIsFree a.idPool i = true)
    (hmask : i ||| a.prefixMask ≠ 0)
    (hmp : lookupAssoc kv (pJoin a.idPfx (Nat.repr (i ||| a.prefixMask))) = none)
    (he1 : env (.lockOp (pJoin a.lockPfx (trimPfx key a.basePfx))) = false)
    (he2 : env (.listPfxIfLockedOp (pJoin a.valuePfx key)) = false)
    (he3 : env (.createOnlyIfLockedOp (pJoin a.idPfx (Nat.repr (i ||| a.prefixMask))) key false) = false)
    (he4 : env (.updIfDiffIfLockedOp (pJoin (pJoin a.valuePfx key) a.suffix)
                 (Nat.repr (i ||| a.prefixMask)) true) = true) :
    (lockedAllocateF env key ⟨a, kv, n, tr⟩).1 = .error "slave key creation failed" ∧
    lookupAssoc (lockedAllocateF env key ⟨a, kv, n, tr⟩).2.kv
      (pJoin a.idPfx (Nat.repr (i ||| a.prefixMask))) = some ⟨key, n⟩ ∧
    (lockedAllocateF env key ⟨a, kv, n, tr⟩).2.trace =
      tr ++ [.lockOp (pJoin a.lockPfx (trimPfx key a.basePfx)),
             .listPfxIfLockedOp (pJoin a.valuePfx key),
             .createOnlyIfLockedOp (pJoin a.idPfx (Nat.repr (i ||| a.prefixMask))) key false,
             .updIfDiffIfLockedOp (pJoin (pJoin a.valuePfx key) a.suffix)
               (Nat.repr (i ||| a.prefixMask)) true] := by
  rw [lockedAllocate_branchC_slavefail env a kv n tr key i hc hfm hlk hlease hi0 hfree hmask
    hmp he1 he2 he3 he4]
  exact ⟨rfl, lookupAssoc_kvWrite_self kv _ key n, rfl⟩

/-- Witness for C4: concrete run in which only the slave write fails — the
attempt errors while the master record is present in the final store. -/
theorem lockedAllocate_leaks_master_on_slave_failure_witness :
    (lockedAllocateF envSlaveFail "a" ⟨allocScenario, [], 0, []⟩).1 =
      .error "slave key creation failed" ∧
    lookupAssoc (lockedAllocateF envSlaveFail "a" ⟨allocScenario, [], 0, []⟩).2.kv
      (pJoin allocScenario.idPfx (Nat.repr (1 ||| allocScenario.prefixMask))) = some ⟨"a", 0⟩ :=
  have h := lockedAllocate_leaks_master_on_slave_failure envSlaveFail allocScenario [] 0 [] "a" 1
    (by rfl) (by rfl) (by rfl) (by decide) (by decide) (by decide) (by decide) (by rfl)
    (by rfl) (by rfl) (by rfl) (by rfl)
  ⟨h.1, h.2.1⟩

/-- C10: in Branch C of `lockedAllocate`, when slave-key creation fails after
`idPool.Use` promoted the leased ID, `releaseKeyAndID` returns the
unmasked leased ID to the free pool — the final pool equals the pre-attempt
pool, so the ID is free and can be leased again locally — even though the
master key for the masked ID remains published in the store. -/
theorem lockedAllocate_releases_id_despite_published_master
    (env : Env) (a : Alloc) (kv : KV) (n : Nat) (tr : List KVOp) (key : String) (i : Nat)
    (hc : lookupAssoc a.kvCache key = none)
    (hfm : firstMatch (pJoin a.valuePfx key) (listPfx kv (pJoin a.valuePfx key)) = none)
    (hlk : lookupAssoc a.localKeys key = none)
    (hlease : leaseAvailableID a.idPool = (i, { a.idPool with leased := i :: a.idPool.leased }))
    (hi0 : i ≠ 0)
    (hfree : poolIsFree a.idPool i = true)
    (hmask : i ||| a.prefixMask ≠ 0)
    (hmp : lookupAssoc kv (pJoin a.idPfx (Nat.repr (i ||| a.prefixMask))) = none)
    (he1 : env (.lockOp (pJoin a.lockPfx (trimPfx key a.basePfx))) = false)
    (he2 : env (.listPfxIfLockedOp (pJoin a.valuePfx key)) = false)
    (he3 : env (.createOnlyIfLockedOp (pJoin a.idPfx (Nat.repr (i ||| a.prefixMask))) key false) = false)
    (he4 : env (.updIfDiffIfLockedOp (pJoin (pJoin a.valuePfx key) a.suffix)
                 (Nat.repr (i ||| a.prefixMask)) true) = true) :
    (lockedAllocateF env key ⟨a, kv, n, tr⟩).2.a.idPool = a.idPool ∧
    poolIsFree (lockedAllocateF env key ⟨a, kv, n, tr⟩).2.a.idPool i = true ∧
    lookupAssoc (lockedAllocateF env key ⟨a, kv, n, tr⟩).2.kv
      (pJoin a.idPfx (Nat.repr (i ||| a.prefixMask))) = some ⟨key, n⟩ := by
  rw [lockedAllocate_branchC_slavefail env a kv n tr key i hc hfm hlk hlease hi0 hfree hmask
    hmp he1 he2 he3 he4]
  exact ⟨rfl, hfree, lookupAssoc_kvWrite_self kv _ key n⟩

/-- Witness for C10: the concrete failed attempt leaves ID 1 free in the pool
while `base/id/1` is still stored. -/
theorem lockedAllocate_releases_id_despite_published_master_witness :
    (lockedAllocateF envSlaveFail "a" ⟨allocScenario, [], 0, []⟩).2.a.idPool =
      allocScenario.idPool ∧
    poolIsFree (lockedAllocateF envSlaveFail "a" ⟨allocScenario, [], 0, []⟩).2.a.idPool 1 = true :=
  have h := lockedAllocate_releases_id_despite_published_master envSlaveFail allocScenario [] 0 []
    "a" 1 (by rfl) (by rfl) (by rfl) (by decide) (by decide) (by decide) (by decide) (by rfl)
    (by rfl) (by rfl) (by rfl) (by rfl)
  ⟨h.1, h.2.1⟩

/-- C5: when Branch C of `lockedAllocate` is reached (no global ID, no local
reference) and `LeaseAvailableID` returns `NoID`, the attempt fails with
`no more available IDs in configured space`; concretely, with `min = 1` and
`max = 3`, three allocations of distinct keys succeed with IDs 1, 2, 3 and a
fourth allocation fails with exactly that error. -/
theorem allocate_pool_exhausted :
    (∀ (env : Env) (a : Alloc) (kv : KV) (n : Nat) (tr : List KVOp) (key : String),
      lookupAssoc a.kvCache key = none →
      firstMatch (pJoin a.valuePfx key) (listPfx kv (pJoin a.valuePfx key)) = none →
      lookupAssoc a.localKeys key = none →
      leaseAvailableID a.idPool = (0, a.idPool) →
      env (.lockOp (pJoin a.lockPfx (trimPfx key a.basePfx))) = false →
      env (.listPfxIfLockedOp (pJoin a.valuePfx key)) = false →
      (lockedAllocateF env key ⟨a, kv, n, tr⟩).1 =
        .error "no more available IDs in configured space") ∧
    scenO1.res = .ok (1, true) ∧ scenO2.res = .ok (2, true) ∧ scenO3.res = .ok (3, true) ∧
    scenO4.res = .error "no more available IDs in configured space" := by
  refine ⟨?_, rfl, rfl, rfl, rfl⟩
  intro env a kv n tr key hc hfm hlk hlease he1 he2
  have hca : cacheGet a key = 0 := by simp [cacheGet, hc]
  have hlkl : lkLookupKey a.localKeys key = 0 := by simp [lkLookupKey, hlk]
  simp only [lockedAllocateF, getIfLockedF, getNoCacheIfLockedF, selectAvailableID, addOp,
    hca, hlkl, hfm, hlease, he1, he2, ne_eq, Bool.false_eq_true, if_false, if_true,
    not_true_eq_false, not_false_eq_true, ite_true, ite_false]

/-- Witness for C5: on a `[1,3]` pool with all three IDs in use, the next
attempt for a fresh key fails with the pool-exhausted error. -/
theorem allocate_pool_exhausted_witness :
    (lockedAllocateF envOK "d" ⟨allocExhausted, [], 0, []⟩).1 =
      .error "no more available IDs in configured space" :=
  allocate_pool_exhausted.1 envOK allocExhausted [] 0 [] "d"
    (by rfl) (by rfl) (by rfl) (by decide) (by rfl) (by rfl)

theorem allocLoop_attempts_le (env : Env) (ctx : Nat → Bool) (key : String) (bMin bFac : Nat) :
    ∀ (fuel ai pi : Nat) (st : St) (prev : Err),
      (allocLoop env ctx key bMin bFac fuel ai pi st prev).attempts ≤ fuel := by
  intro fuel
  induction fuel with
  | zero => intro ai pi st prev; simp [allocLoop]
  | succ fuel ih =>
    intro ai pi st prev
    simp only [allocLoop]
    split
    · simp
    · split
      · simp
      · split
        · simp
        · exact Nat.succ_le_succ (ih _ _ _ _)

theorem allocLoop_waits (env : Env) (ctx : Nat → Bool) (key : String) (bMin bFac : Nat) :
    ∀ (fuel ai pi : Nat) (st : St) (prev : Err) (i : Nat),
      i < (allocLoop env ctx key bMin bFac fuel ai pi st prev).waitsMs.length →
      (allocLoop env ctx key bMin bFac fuel ai pi st prev).waitsMs.getD i 0 =
        bMin * bFac ^ (ai + i) := by
  intro fuel
  induction fuel with
  | zero => intro ai pi st prev i h; simp [allocLoop] at h
  | succ fuel ih =>
    intro ai pi st prev i
    rcases hla : lockedAllocateF env key st with ⟨res, st1⟩
    cases res with
    | ok vn =>
      obtain ⟨v, isNew⟩ := vn
      intro h
      simp [allocLoop, hla] at h
    | error e =>
      by_cases h1 : ctx pi
      · intro h; simp [allocLoop, hla, h1] at h
      · by_cases h2 : ctx (pi + 1)
        · intro h; simp [allocLoop, hla, h1, h2] at h
        · intro h
          simp only [allocLoop, hla, h1, h2, Bool.false_eq_true, if_false] at h ⊢
          cases i with
          | zero => simp
          | succ i =>
            simp only [List.length_cons, Nat.succ_lt_succ_iff] at h
            simp only [List.getD_cons_succ]
            rw [ih _ _ _ _ i h]
            have hexp : ai + 1 + i = ai + (i + 1) := by omega
            rw [hexp]

theorem allocLoop_all_failed (env : Env) (ctx : Nat → Bool) (key : String) (bMin bFac : Nat)
    (hctx : ∀ p, ctx p = false) :
    ∀ (fuel ai pi : Nat) (st : St) (prev : Err),
      (allocLoop env ctx key bMin bFac fuel ai pi st prev).errs.length = fuel →
      (allocLoop env ctx key bMin bFac fuel ai pi st prev).res =
        .error ((allocLoop env ctx key bMin bFac fuel ai pi st prev).errs.getLastD prev) := by
  intro fuel
  induction fuel with
  | zero => intro ai pi st prev _; simp [allocLoop]
  | succ fuel ih =>
    intro ai pi st prev hlen
    revert hlen
    simp only [allocLoop]
    split
    · intro hlen; simp at hlen
    · rename_i e st1 heq
      simp only [hctx, Bool.false_eq_true, if_false]
      intro hlen
      simp only [List.length_cons, Nat.succ.injEq] at hlen
      simp only [List.getLastD_cons]
      exact ih _ _ _ _ hlen

theorem allocLoop_cancelled (env : Env) (ctx : Nat → Bool) (key : String) (bMin bFac : Nat)
    (hctx : ∀ p, ctx p = true) :
    ∀ (fuel ai pi : Nat) (st : St) (prev : Err),
      (allocLoop env ctx key bMin bFac fuel ai pi st prev).attempts ≤ 1 := by
  intro fuel
  cases fuel with
  | zero => intro ai pi st prev; simp [allocLoop]
  | succ fuel =>
    intro ai pi st prev
    simp only [allocLoop]
    split
    · simp
    · simp [hctx]

theorem foldOpt_backoffMinMs (opts : List AllocOpt) :
    ∀ a : Alloc, (opts.foldl applyOpt a).backoffMinMs = a.backoffMinMs := by
  induction opts with
  | nil => intro a; rfl
  | cons o opts ih =>
    intro a
    rw [List.foldl_cons, ih]
    cases o <;> rfl

theorem foldOpt_backoffFactor (opts : List AllocOpt) :
    ∀ a : Alloc, (opts.foldl applyOpt a).backoffFactor = a.backoffFactor := by
  induction opts with
  | nil => intro a; rfl
  | cons o opts ih =>
    intro a
    rw [List.foldl_cons, ih]
    cases o <;> rfl

/-- C6: after the local fast path misses, `Allocate` performs at most
`maxAllocAttempts = 16` tries of `lockedAllocate`; the wait after the `n`-th
failed attempt is `backoffMin * factor^n` with `NewAllocator` fixing
`backoffMin = 20` ms and `factor = 2`; a cancelled context stops the loop
after the current attempt; and when all 16 attempts fail without
cancellation, the result is the last attempt's error. -/
theorem allocate_retry_bounded (env : Env) (ctx : Nat → Bool) (key : String) (st : St) :
    (allocateF env ctx key st).attempts ≤ maxAllocAttempts ∧
    (∀ i : Nat, i < (allocateF env ctx key st).waitsMs.length →
      (allocateF env ctx key st).waitsMs.getD i 0 =
        st.a.backoffMinMs * st.a.backoffFactor ^ i) ∧
    ((∀ p, ctx p = false) → (allocateF env ctx key st).errs.length = maxAllocAttempts →
      (allocateF env ctx key st).res = .error ((allocateF env ctx key st).errs.getLastD "")) ∧
    ((∀ p, ctx p = true) → (allocateF env ctx key st).attempts ≤ 1) ∧
    (∀ (c : Bool) (d b : String) (o : List AllocOpt) (al : Alloc),
      newAllocatorF c d b o = .ok al → al.backoffMinMs = 20 ∧ al.backoffFactor = 2) := by
  refine ⟨?_, ?_, ?_, ?_, ?_⟩
  · simp only [allocateF]
    split
    · simp [maxAllocAttempts]
    · exact allocLoop_attempts_le env ctx key _ _ _ _ _ _ _
  · simp only [allocateF]
    split
    · intro i h; simp at h
    · intro i h
      have := allocLoop_waits env ctx key _ _ _ _ _ _ _ i h
      simpa using this
  · simp only [allocateF]
    split
    · intro _ hlen; simp [maxAllocAttempts] at hlen
    · intro hctx hlen
      exact allocLoop_all_failed env ctx key _ _ hctx _ _ _ _ _ hlen
  · simp only [allocateF]
    split
    · intro _; simp
    · intro hctx
      exact allocLoop_cancelled env ctx key _ _ hctx _ _ _ _ _
  · intro c d b o al hok
    unfold newAllocatorF at hok
    cases c with
    | false => simp at hok
    | true =>
      simp only [Bool.not_true, Bool.false_eq_true, if_false] at hok
      split_ifs at hok with h1 h2 h3
      injection hok with hal
      subst hal
      constructor
      · show (o.foldl applyOpt (defaultAlloc d b)).backoffMinMs = 20
        rw [foldOpt_backoffMinMs]
        rfl
      · show (o.foldl applyOpt (defaultAlloc d b)).backoffFactor = 2
        rw [foldOpt_backoffFactor]
        rfl

/-- Witness for C6: with every KV operation failing and no cancellation, all
16 attempts fail and the returned error is the last attempt's error. -/
theorem allocate_retry_bounded_witness :
    (allocateF envFailAll ctxNever "k" scenSt).res =
      .error ((allocateF envFailAll ctxNever "k" scenSt).errs.getLastD "") :=
  (allocate_retry_bounded envFailAll ctxNever "k" scenSt).2.2.1 (fun _ => rfl) (by rfl)

theorem mem_listPfx {kv : KV} {p : String} {x : String × KVEntry} :
    x ∈ listPfx kv p ↔ x ∈ kv ∧ strPfx p x.1 = true := by
  simp [listPfx, List.mem_filter]

theorem removeKeys_nil (kv : KV) : removeKeys kv [] = kv := by
  simp [removeKeys]

theorem listPfx_removeKeys {kv : KV} {D : List String} {p : String}
    (hD : ∀ x ∈ listPfx kv p, D.contains x.1 = false) :
    listPfx (removeKeys kv D) p = listPfx kv p := by
  have h1 : listPfx (removeKeys kv D) p = (listPfx kv p).filter (fun e => !(D.contains e.1)) := by
    simp only [listPfx, removeKeys, List.filter_filter]
    exact List.filter_congr (fun a _ => Bool.and_comm _ _)
  rw [h1, List.filter_eq_self]
  intro x hx
  simp only [Bool.not_eq_true']
  exact hD x hx

theorem hasMatchingSlave_removeKeys {kv : KV} {D : List String} {a : Alloc} {d : String}
    (hD : ∀ x ∈ listPfx kv (pJoin a.valuePfx d), D.contains x.1 = false) :
    hasMatchingSlave (removeKeys kv D) a d = hasMatchingSlave kv a d := by
  rw [hasMatchingSlave, listPfx_removeKeys hD, hasMatchingSlave]

theorem kvErase_removeKeys (kv : KV) (D : List String) (k : String) :
    kvErase (removeKeys kv D) k = removeKeys kv (k :: D) := by
  simp only [kvErase, removeKeys, List.filter_filter]
  refine List.filter_congr (fun a _ => ?_)
  by_cases h : a.1 = k <;> simp [h, List.contains_cons]

theorem nodupKeys_unique {α : Type} {l : List (String × α)} (hnd : (l.map Prod.fst).Nodup)
    {k : String} {a b : α} (ha : (k, a) ∈ l) (hb : (k, b) ∈ l) : a = b := by
  induction l with
  | nil => simp at ha
  | cons e rest ih =>
    rw [List.map_cons, List.nodup_cons] at hnd
    rcases List.mem_cons.mp ha with h1 | h1
    · rcases List.mem_cons.mp hb with h2 | h2
      · have h3 : (k, a) = (k, b) := h1.trans h2.symm
        exact (Prod.ext_iff.mp h3).2
      · exfalso
        have hk : e.1 = k := by rw [← h1]
        exact hnd.1 (hk ▸ List.mem_map.mpr ⟨(k, b), h2, rfl⟩)
    · rcases List.mem_cons.mp hb with h2 | h2
      · exfalso
        have hk : e.1 = k := by rw [← h2]
        exact hnd.1 (hk ▸ List.mem_map.mpr ⟨(k, a), h1, rfl⟩)
      · exact ih hnd.2 h1 h2

theorem gcDelB_eq_true {kv : KV} {a : Alloc} {prev : List (String × Nat)} {e : String × KVEntry} :
    gcDelB kv a prev e = true ↔
      (hasMatchingSlave kv a e.2.data = false ∧ lookupAssoc prev e.1 = some e.2.modRev) := by
  simp [gcDelB, Bool.and_eq_true, Bool.not_eq_true']

theorem gcStaleB_eq_true {kv : KV} {a : Alloc} {prev : List (String × Nat)} {e : String × KVEntry} :
    gcStaleB kv a prev e = true ↔
      (hasMatchingSlave kv a e.2.data = false ∧ lookupAssoc prev e.1 ≠ some e.2.modRev) := by
  simp [gcStaleB, Bool.and_eq_true, Bool.not_eq_true']

theorem runGCLoop_spec (env : Env) (prev : List (String × Nat)) (a : Alloc) (origkv : KV)
    (he : ∀ o, env o = false) (allE : KV)
    (hdisj : ∀ e ∈ allE, ∀ x ∈ allE, strPfx (pJoin a.valuePfx e.2.data) x.1 = false) :
    ∀ (entries : List (String × KVEntry)), (∀ e ∈ entries, e ∈ allE) →
    ∀ (D : List String), (∀ e ∈ allE, ∀ k ∈ D, strPfx (pJoin a.valuePfx e.2.data) k = false) →
    ∀ (st : St), st.a = a → st.kv = removeKeys origkv D →
    ∀ (sk : List (String × Nat)) (dl : List String),
      (runGCLoop env prev entries st sk dl).1 =
        sk ++ entries.filterMap
          (fun e => if gcStaleB origkv a prev e then some (e.1, e.2.modRev) else none) ∧
      (runGCLoop env prev entries st sk dl).2.1 =
        dl ++ (entries.filter (gcDelB origkv a prev)).map Prod.fst := by
  intro entries
  induction entries with
  | nil =>
    intro _ D hD st hsta hstkv sk dl
    simp [runGCLoop]
  | cons e rest ih =>
    intro hsub D hD st hsta hstkv sk dl
    obtain ⟨key, v⟩ := e
    have hsubr : ∀ x ∈ rest, x ∈ allE := fun x hx => hsub x (List.mem_cons_of_mem _ hx)
    have hhead : (key, v) ∈ allE := hsub _ (List.mem_cons_self _ _)
    have hd' : ∀ x ∈ listPfx origkv (pJoin a.valuePfx v.data), D.contains x.1 = false := by
      intro x hx
      cases hcontains : D.contains x.1 with
      | false => rfl
      | true =>
        have hxd : x.1 ∈ D := by simpa using hcontains
        have hfalse := hD (key, v) hhead x.1 hxd
        rw [(mem_listPfx.mp hx).2] at hfalse
        simp at hfalse
    simp only [runGCLoop, he, Bool.false_eq_true, if_false, addOp_a, addOp_kv, hsta, hstkv,
      hasMatchingSlave_removeKeys hd']
    cases hm : hasMatchingSlave origkv a v.data with
    | true =>
      simp only [if_true]
      have hstale : gcStaleB origkv a prev (key, v) = false := by simp [gcStaleB, hm]
      have hdel : gcDelB origkv a prev (key, v) = false := by simp [gcDelB, hm]
      constructor
      · refine Eq.trans ((ih hsubr D hD _ (by simp [addOp_a, hsta]) (by simp [addOp_kv, hstkv])
          sk dl).1) ?_
        simp [List.filterMap_cons, hstale]
      · refine Eq.trans ((ih hsubr D hD _ (by simp [addOp_a, hsta]) (by simp [addOp_kv, hstkv])
          sk dl).2) ?_
        simp [List.filter_cons, hdel]
    | false =>
      simp only [Bool.false_eq_true, if_false]
      cases hpl : lookupAssoc prev key with
      | some rev =>
        by_cases hrev : rev = v.modRev
        · subst hrev
          simp only [if_pos rfl, eq_self_iff_true, if_true, he, Bool.false_eq_true, if_false]
          have hdel : gcDelB origkv a prev (key, v) = true := by
            simp [gcDelB, hm, hpl]
          have hstale : gcStaleB origkv a prev (key, v) = false := by
            simp [gcStaleB, hpl]
          have hD2 : ∀ x ∈ allE, ∀ k ∈ key :: D,
              strPfx (pJoin a.valuePfx x.2.data) k = false := by
            intro x hxe k hk
            rcases List.mem_cons.mp hk with hk1 | hk2
            · rw [hk1]
              exact hdisj x hxe (key, v) hhead
            · exact hD x hxe k hk2
          constructor
          · refine Eq.trans ((ih hsubr (key :: D) hD2 _ (by simp [addOp_a, hsta])
              (by simp [addOp_kv, kvErase_removeKeys]) sk (dl ++ [key])).1) ?_
            simp [List.filterMap_cons, hstale]
          · refine Eq.trans ((ih hsubr (key :: D) hD2 _ (by simp [addOp_a, hsta])
              (by simp [addOp_kv, kvErase_removeKeys]) sk (dl ++ [key])).2) ?_
            simp [List.filter_cons, hdel]
        · simp only [if_neg hrev]
          have hne : (some rev == some v.modRev) = false := by
            rw [beq_eq_false_iff_ne]
            simp [hrev]
          have hdel : gcDelB origkv a prev (key, v) = false := by
            simp [gcDelB, hpl, hne]
          have hstale : gcStaleB origkv a prev (key, v) = true := by
            simp [gcStaleB, hm, hpl, hne]
          constructor
          · refine Eq.trans ((ih hsubr D hD _ (by simp [addOp_a, hsta]) (by simp [addOp_kv, hstkv])
              (sk ++ [(key, v.modRev)]) dl).1) ?_
            simp [List.filterMap_cons, hstale]
          · refine Eq.trans ((ih hsubr D hD _ (by simp [addOp_a, hsta]) (by simp [addOp_kv, hstkv])
              (sk ++ [(key, v.modRev)]) dl).2) ?_
            simp [List.filter_cons, hdel]
      | none =>
        have hdel : gcDelB origkv a prev (key, v) = false := by simp [gcDelB, hpl]
        have hstale : gcStaleB origkv a prev (key, v) = true := by simp [gcStaleB, hm, hpl]
        constructor
        · refine Eq.trans ((ih hsubr D hD _ (by simp [addOp_a, hsta]) (by simp [addOp_kv, hstkv])
            (sk ++ [(key, v.modRev)]) dl).1) ?_
          simp [List.filterMap_cons, hstale]
        · refine Eq.trans ((ih hsubr D hD _ (by simp [addOp_a, hsta]) (by simp [addOp_kv, hstkv])
            (sk ++ [(key, v.modRev)]) dl).2) ?_
          simp [List.filter_cons, hdel]

theorem staleOf_of_res {g : GCOut} {s : List (String × Nat)} (h : g.res = .ok s) :
    staleOf g = s := by
  rw [staleOf, h]

/-- C1: with no transport failures, `RunGC(staleKeysPrevRound)` deletes a
listed master exactly when, at scan time, no pair under
`valuePrefix/<masterValue>` matches the prefix exactly and the previous round
recorded the master's current `ModRevision`; every userless master that is
not deleted is returned mapped to its `ModRevision`, and masters with a
matching slave never appear in the returned map. -/
theorem runGC_two_round (env : Env) (st : St) (prev : List (String × Nat))
    (he : ∀ o, env o = false)
    (hnd : (st.kv.map Prod.fst).Nodup)
    (hdisj : ∀ e ∈ listPfx st.kv st.a.idPfx, ∀ x ∈ listPfx st.kv st.a.idPfx,
      strPfx (pJoin st.a.valuePfx e.2.data) x.1 = false) :
    ∀ (key : String) (v : KVEntry), (key, v) ∈ listPfx st.kv st.a.idPfx →
      ((key ∈ (runGCF env prev st).deleted) ↔
        (hasMatchingSlave st.kv st.a v.data = false ∧ lookupAssoc prev key = some v.modRev)) ∧
      (hasMatchingSlave st.kv st.a v.data = false → key ∉ (runGCF env prev st).deleted →
        (key, v.modRev) ∈ staleOf (runGCF env prev st)) ∧
      (hasMatchingSlave st.kv st.a v.data = true →
        ∀ r, (key, r) ∉ staleOf (runGCF env prev st)) := by
  intro key v hmem
  have hspec := runGCLoop_spec env prev st.a st.kv he (listPfx st.kv st.a.idPfx) hdisj
    (listPfx st.kv st.a.idPfx) (fun e he' => he') [] (by simp)
    (addOp st (.listPfxOp st.a.idPfx)) (addOp_a _ _)
    (by rw [addOp_kv, removeKeys_nil]) [] []
  have hdeleq : (runGCF env prev st).deleted =
      ((listPfx st.kv st.a.idPfx).filter (gcDelB st.kv st.a prev)).map Prod.fst := by
    simp only [runGCF, he, Bool.false_eq_true, if_false, addOp_kv]
    simpa using hspec.2
  have hreseq : (runGCF env prev st).res =
      .ok ((listPfx st.kv st.a.idPfx).filterMap
        (fun e => if gcStaleB st.kv st.a prev e then some (e.1, e.2.modRev) else none)) := by
    simp only [runGCF, he, Bool.false_eq_true, if_false, addOp_kv]
    rw [Except.ok.injEq]
    simpa using hspec.1
  have hstaleq := staleOf_of_res hreseq
  have hndE : ((listPfx st.kv st.a.idPfx).map Prod.fst).Nodup :=
    hnd.sublist (List.Sublist.map Prod.fst (List.filter_sublist st.kv))
  refine ⟨?_, ?_, ?_⟩
  · rw [hdeleq]
    constructor
    · intro hk
      obtain ⟨e, hef, hek⟩ := List.mem_map.mp hk
      obtain ⟨heE, heB⟩ := List.mem_filter.mp hef
      obtain ⟨k2, v2⟩ := e
      have hkey : k2 = key := hek
      subst hkey
      have hv : v2 = v := nodupKeys_unique hndE heE hmem
      subst hv
      exact gcDelB_eq_true.mp heB
    · intro hcond
      exact List.mem_map.mpr ⟨(key, v),
        List.mem_filter.mpr ⟨hmem, gcDelB_eq_true.mpr hcond⟩, rfl⟩
  · intro hmatch hnotdel
    rw [hstaleq]
    have hnotB : gcDelB st.kv st.a prev (key, v) = false := by
      cases hB : gcDelB st.kv st.a prev (key, v) with
      | false => rfl
      | true =>
        exfalso
        apply hnotdel
        rw [hdeleq]
        exact List.mem_map.mpr ⟨(key, v), List.mem_filter.mpr ⟨hmem, hB⟩, rfl⟩
    have hne : lookupAssoc prev key ≠ some v.modRev := by
      intro hcontra
      rw [gcDelB_eq_true.mpr ⟨hmatch, hcontra⟩] at hnotB
      simp at hnotB
    refine List.mem_filterMap.mpr ⟨(key, v), hmem, ?_⟩
    rw [if_pos (gcStaleB_eq_true.mpr ⟨hmatch, hne⟩)]
  · intro hmatch r hin
    rw [hstaleq] at hin
    obtain ⟨e, heE, hfe⟩ := List.mem_filterMap.mp hin
    obtain ⟨k2, v2⟩ := e
    by_cases hB : gcStaleB st.kv st.a prev (k2, v2) = true
    · rw [if_pos hB] at hfe
      have hk2 : k2 = key := (Prod.ext_iff.mp (Option.some_inj.mp hfe)).1
      subst hk2
      have hv : v2 = v := nodupKeys_unique hndE heE hmem
      subst hv
      have := (gcStaleB_eq_true.mp hB).1
      rw [hmatch] at this
      cases this
    · rw [if_neg hB] at hfe
      cases hfe

/-- Witness for C1: in the concrete GC scenario, master `base/id/2` (no
slaves, recorded by the previous round at revision 6) is deleted, while
master `base/id/1` (backed by a slave) never enters the returned stale map. -/
theorem runGC_two_round_witness :
    "base/id/2" ∈ (runGCF envOK prevGC stGC).deleted ∧
    ∀ r, ("base/id/1", r) ∉ staleOf (runGCF envOK prevGC stGC) :=
  have h2 := runGC_two_round envOK stGC prevGC (fun _ => rfl) (by decide) (by decide)
    "base/id/2" ⟨"b", 6⟩ (by decide)
  have h1 := runGC_two_round envOK stGC prevGC (fun _ => rfl) (by decide) (by decide)
    "base/id/1" ⟨"a", 5⟩ (by decide)
  ⟨h2.1.mpr ⟨by decide, by decide⟩, h1.2.2 (by decide)⟩

end CiliumAlloc
